import Mathlib

/-!
# Verification of `saf_veclib.c` (Spatial_Audio_Framework utilities)

Shallow embedding of the vector/matrix utility drivers of
`src/framework/saf_utilities/saf_veclib.c`.

Modelling conventions:
* C `float` / `double` values are modelled as exact rationals (`ℚ`); the
  properties under scrutiny are control-flow and data-movement contracts,
  not rounding behaviour.
* C `float_complex` is modelled as a pair `ℚ × ℚ` (real, imaginary).
* Flat C buffers are modelled as `List ℚ` (vectors) or as total functions
  `ℕ → ℚ` (matrix buffers indexed by the row-major/column-major flat index,
  exactly as the C code indexes them).
* A nullable pointer argument is modelled as an `Option`; writing through a
  null pointer (undefined behaviour in C) makes the model return `none`.
* The LAPACK backend (`sgesvd_`, `ssyev_`, `cgeev_`, ...) is external to the
  repository; its outputs (`info`, the raw column-major factor buffers) are
  taken as parameters of the drivers, and each driver models the
  post-backend output phase of the corresponding C function.
-/

namespace SafVeclib

/-! ## `sortf` — the static sorting utility (saf_veclib.c lines 40-91)

The C code builds an array of `sort_float { float val; int idx; }` records,
`qsort`s it with `cmp_asc_float` / `cmp_desc_float`, and writes values (and
optionally the original indices) back out.  `qsort`'s order on ties is
unspecified by the C standard; the model fixes a stable sort, which agrees
with every `qsort` on tie-free data. -/

/-- Comparator relation for ascending order: record `a` may precede `b`
(`cmp_asc_float(a,b) <= 0`, i.e. `a.val <= b.val`). -/
def cmp_asc_r (a b : ℚ × ℕ) : Prop := a.1 ≤ b.1

/-- Comparator relation for descending order: record `a` may precede `b`
(`cmp_desc_float(a,b) <= 0`, i.e. `a.val >= b.val`). -/
def cmp_desc_r (a b : ℚ × ℕ) : Prop := b.1 ≤ a.1

instance : DecidableRel cmp_asc_r :=
  fun a b => inferInstanceAs (Decidable (a.1 ≤ b.1))

instance : DecidableRel cmp_desc_r :=
  fun a b => inferInstanceAs (Decidable (b.1 ≤ a.1))

instance : IsTotal (ℚ × ℕ) cmp_asc_r := ⟨fun a b => le_total a.1 b.1⟩

instance : IsTotal (ℚ × ℕ) cmp_desc_r := ⟨fun a b => le_total b.1 a.1⟩

instance : IsTrans (ℚ × ℕ) cmp_asc_r :=
  ⟨fun _ _ _ hab hbc => le_trans hab hbc⟩

instance : IsTrans (ℚ × ℕ) cmp_desc_r :=
  ⟨fun _ _ _ hab hbc => le_trans hbc hab⟩

/-- The sorted `(val, idx)` record array built and sorted by `sortf`. -/
def sortf_data (in_vec : List ℚ) (descendFLAG : Bool) : List (ℚ × ℕ) :=
  let data := in_vec.enum.map Prod.swap
  if descendFLAG then List.insertionSort cmp_desc_r data
  else List.insertionSort cmp_asc_r data

/-- The value outputs of `sortf` (`data[i].val`). -/
def sortf_vals (in_vec : List ℚ) (descendFLAG : Bool) : List ℚ :=
  (sortf_data in_vec descendFLAG).map Prod.fst

/-- The index outputs of `sortf` (`data[i].idx`). -/
def sortf_idx (in_vec : List ℚ) (descendFLAG : Bool) : List ℕ :=
  (sortf_data in_vec descendFLAG).map Prod.snd

/-- Full model of `sortf`: `out_null` models `out_vec == NULL` (sort
in place), `idx_null` models `new_idices == NULL`.  Returns the final
contents of `in_vec`, of `out_vec` (when present) and of `new_idices`
(when present). -/
def sortf (in_vec : List ℚ) (out_null idx_null : Bool) (descendFLAG : Bool) :
    List ℚ × Option (List ℚ) × Option (List ℕ) :=
  let vals := sortf_vals in_vec descendFLAG
  ( if out_null then vals else in_vec,
    if out_null then none else some vals,
    if idx_null then none else some (sortf_idx in_vec descendFLAG) )

theorem sortf_data_perm (v : List ℚ) (f : Bool) :
    List.Perm (sortf_data v f) (v.enum.map Prod.swap) := by
  unfold sortf_data
  cases f <;> simpa using List.perm_insertionSort _ _

theorem length_sortf_vals (v : List ℚ) (f : Bool) :
    (sortf_vals v f).length = v.length := by
  unfold sortf_vals
  rw [List.length_map, (sortf_data_perm v f).length_eq]
  simp

theorem sortf_vals_getElem? (v : List ℚ) (f : Bool) (i : ℕ) :
    (sortf_vals v f)[i]? = ((sortf_idx v f)[i]?.bind fun k => v[k]?) := by
  unfold sortf_vals sortf_idx
  rcases h : (sortf_data v f)[i]? with _ | p
  · simp [List.getElem?_map, h]
  · have hmem : p ∈ sortf_data v f := List.getElem?_mem h
    have hmem' : p ∈ v.enum.map (fun q => (q.2, q.1)) :=
      (sortf_data_perm v f).mem_iff.mp hmem
    rcases List.mem_map.mp hmem' with ⟨q, hq, hpq⟩
    have hqv : v[q.1]? = some q.2 := List.mem_enum_iff_getElem?.mp hq
    simp only [List.getElem?_map, h, Option.map_some', Option.bind_some]
    rw [← hpq]
    simpa using hqv.symm

theorem sortf_vals_sorted (v : List ℚ) (f : Bool) :
    (sortf_vals v f).Pairwise (fun a b : ℚ => if f then b ≤ a else a ≤ b) := by
  cases f
  · unfold sortf_vals sortf_data
    simp only [Bool.false_eq_true, if_false]
    exact List.Pairwise.map Prod.fst
      (fun (a b : ℚ × ℕ) (hh : cmp_asc_r a b) => hh)
      (List.sorted_insertionSort cmp_asc_r (v.enum.map Prod.swap))
  · unfold sortf_vals sortf_data
    simp only [if_true]
    exact List.Pairwise.map Prod.fst
      (fun (a b : ℚ × ℕ) (hh : cmp_desc_r a b) => hh)
      (List.sorted_insertionSort cmp_desc_r (v.enum.map Prod.swap))

/-- C8: `sortf` rearranges the values into ascending order when `descendFLAG`
is 0 and descending order when it is 1 (into `out_vec` when non-null,
otherwise in place into `in_vec`); when `new_idices` is non-null,
`new_idices[i]` is the original position of the value placed at output
position `i`; concretely `sortf([3,1,2], descending)` yields values
`[3,2,1]` and indices `[0,2,1]`. -/
theorem C8_sortf_sorts_with_indices (v : List ℚ) (f : Bool) :
    ((sortf_vals v f).Pairwise (fun a b : ℚ => if f then b ≤ a else a ≤ b)
      ∧ ∀ i : ℕ, (sortf_vals v f)[i]? = ((sortf_idx v f)[i]?.bind fun k => v[k]?))
    ∧ ((sortf v true false f).1 = sortf_vals v f
        ∧ (sortf v true false f).2.2 = some (sortf_idx v f)
        ∧ (sortf v false false f).2.1 = some (sortf_vals v f)
        ∧ (sortf v false false f).1 = v)
    ∧ (sortf_vals [3, 1, 2] true = [3, 2, 1]
        ∧ sortf_idx [3, 1, 2] true = [0, 2, 1]) :=
  ⟨⟨sortf_vals_sorted v f, sortf_vals_getElem? v f⟩,
   ⟨rfl, rfl, rfl, rfl⟩,
   by decide, by decide⟩

/-! ## Vector primitives (saf_veclib.c lines 93-256) -/

/-- Model of `utility_svsdiv` (saf_veclib.c lines 221-234): vector-scalar
division.  A zero scalar `s[0] == 0.0f` zero-fills the `len`-element output
(`memset(c, 0, len*sizeof(float))`) and returns; otherwise each element is
`a[i] / s[0]`.  (In the exact-rational model no NaN/Inf exists; the guard is
precisely what prevents the division by zero.) -/
def utility_svsdiv (a : List ℚ) (s : ℚ) : List ℚ :=
  if s = 0 then List.replicate a.length 0
  else a.map (fun x => x / s)

/-- The compile-time numerical backend selected by the preprocessor in
saf_veclib.c: Apple Accelerate (`__ACCELERATE__`), Intel MKL
(`INTEL_MKL_VERSION`), or the plain-C fallback. -/
inductive Backend
  | accelerate
  | mkl
  | generic
deriving DecidableEq

/-- Model of `utility_svvmul` (saf_veclib.c lines 115-134), element-wise
vector multiply.  `c = none` models a NULL output pointer.  The result is
`none` when the code writes through a NULL pointer (the MKL path passes `c`
straight to `vsMul`, and the generic fallback loop writes `c[i]`
unconditionally); otherwise it is `some` of the final contents of `a` and
`c`. -/
def utility_svvmul (bk : Backend) (a b : List ℚ) (c : Option (List ℚ)) :
    Option (List ℚ × Option (List ℚ)) :=
  match bk, c with
  | .accelerate, none =>
      -- tmp = a .* b; utility_svvcopy(tmp, len, a)
      some (List.zipWith (fun x y => x * y) a b, none)
  | .accelerate, some _ =>
      -- vDSP_vmul(a, 1, b, 1, c, 1, len)
      some (a, some (List.zipWith (fun x y => x * y) a b))
  | .mkl, none => none          -- vsMul(len, a, b, NULL): NULL dereference
  | .mkl, some _ => some (a, some (List.zipWith (fun x y => x * y) a b))
  | .generic, none => none      -- for loop writes c[i] with c == NULL
  | .generic, some _ => some (a, some (List.zipWith (fun x y => x * y) a b))

/-- Model of `utility_svsmul` (saf_veclib.c lines 181-200), vector-scalar
multiply.  Same conventions as `utility_svvmul`: on the Accelerate and MKL
paths a NULL `c` scales `a` in place via `cblas_sscal`; the generic fallback
writes `c[i]` unconditionally. -/
def utility_svsmul (bk : Backend) (a : List ℚ) (s : ℚ) (c : Option (List ℚ)) :
    Option (List ℚ × Option (List ℚ)) :=
  match bk, c with
  | .accelerate, none => some (a.map (fun x => x * s), none)
  | .accelerate, some _ => some (a, some (a.map (fun x => x * s)))
  | .mkl, none => some (a.map (fun x => x * s), none)
  | .mkl, some _ => some (a, some (a.map (fun x => x * s)))
  | .generic, none => none      -- for loop writes c[i] with c == NULL
  | .generic, some _ => some (a, some (a.map (fun x => x * s)))

/-- C2: `utility_svsdiv` zero-fills the whole output when the scalar divisor
is 0 (rather than producing NaN/Inf), and otherwise divides each element by
the scalar. -/
theorem C2_svsdiv_zero_guard (a : List ℚ) (s : ℚ) :
    (s = 0 → utility_svsdiv a s = List.replicate a.length 0)
    ∧ (s ≠ 0 → ∀ i : ℕ, (utility_svsdiv a s)[i]? = a[i]?.map (fun x => x / s)) := by
  constructor
  · intro hs
    simp [utility_svsdiv, hs]
  · intro hs i
    simp [utility_svsdiv, hs, List.getElem?_map]

/-- Witness for C2 at concrete inputs: dividing `[3, 4]` by `0` yields
`[0, 0]`, and dividing by `2` yields `3/2` at position 0. -/
theorem C2_svsdiv_zero_guard_witness :
    utility_svsdiv [3, 4] 0 = [0, 0]
    ∧ (utility_svsdiv [3, 4] 2)[0]? = some (3 / 2 : ℚ) := by
  constructor
  · have h := (C2_svsdiv_zero_guard [3, 4] 0).1 rfl
    simpa using h
  · have h := (C2_svsdiv_zero_guard [3, 4] 2).2 (by norm_num) 0
    simpa using h

/-- C3 counterexample: on the plain-C fallback build, `utility_svvmul` with
`c == NULL` does not operate in place on `a` — the loop dereferences the NULL
output pointer — so the claimed in-place behaviour fails on that path. -/
theorem C3_counterexample_generic_null :
    utility_svvmul .generic [1] [2] none = none
    ∧ utility_svvmul .generic [1] [2] none ≠ some ([2], none) := by
  constructor
  · rfl
  · intro h
    simp [utility_svvmul] at h

/-- C3 (amended): the NULL-`c` in-place behaviour holds on the Accelerate
path for both `utility_svvmul` and `utility_svsmul`, and on the MKL path for
`utility_svsmul`; the MKL `utility_svvmul` path and the generic fallback of
both functions pass the NULL pointer straight into the element writes. -/
theorem C3_inplace_on_backend_paths (a b : List ℚ) (s : ℚ) :
    utility_svvmul .accelerate a b none
      = some (List.zipWith (fun x y => x * y) a b, none)
    ∧ utility_svsmul .accelerate a s none = some (a.map (fun x => x * s), none)
    ∧ utility_svsmul .mkl a s none = some (a.map (fun x => x * s), none)
    ∧ utility_svvmul .mkl a b none = none
    ∧ utility_svvmul .generic a b none = none
    ∧ utility_svsmul .generic a s none = none :=
  ⟨rfl, rfl, rfl, rfl, rfl, rfl⟩

/-! ## Pseudo-inverse failure path, byte-level (saf_veclib.c lines 634-642
and 703-711)

The convergence-failure branch of both pseudo-inverse drivers executes
`memset(outM, 0, dim1*dim2*sizeof(float))` and returns.  For `utility_spinv`
the output holds `dim1*dim2` floats, so the whole buffer is cleared; for
`utility_dpinv` the output holds `dim1*dim2` doubles (8 bytes each) but the
`memset` still counts `sizeof(float)` (4) bytes per element, so only the
first half of the buffer is cleared.  The buffers are modelled as byte
lists to capture this. -/

/-- `sizeof(float)` in bytes. -/
def float_bytes : ℕ := 4

/-- `sizeof(double)` in bytes. -/
def double_bytes : ℕ := 8

/-- `memset(buf, 0, n)` on a byte buffer. -/
def memset0 (buf : List ℕ) (n : ℕ) : List ℕ :=
  buf.mapIdx (fun i b => if i < n then 0 else b)

/-- Failure branch of `utility_spinv` (line 635): the output buffer holds
`dim1*dim2` floats and `dim1*dim2*sizeof(float)` bytes are zeroed. -/
def spinv_fail_outM (dim1 dim2 : ℕ) (outM : List ℕ) : List ℕ :=
  memset0 outM (dim1 * dim2 * float_bytes)

/-- Failure branch of `utility_dpinv` (line 704): the output buffer holds
`dim1*dim2` doubles, yet the byte count passed to `memset` is
`dim1*dim2*sizeof(float)` — exactly as in the C source. -/
def dpinv_fail_outM (dim1 dim2 : ℕ) (outM : List ℕ) : List ℕ :=
  memset0 outM (dim1 * dim2 * float_bytes)

/-- C1 (code bug in `utility_dpinv`): for `dim1 = dim2 = 1` and an output
buffer of all-one bytes, the single-precision driver clears its whole
4-byte float buffer, but the double-precision driver clears only the first
4 of the 8 bytes of its single double element — the element is left
partially unwritten, contradicting the zero-fill contract. -/
theorem C1_dpinv_memset_short :
    spinv_fail_outM 1 1 (List.replicate (1 * 1 * float_bytes) 1) = [0, 0, 0, 0]
    ∧ dpinv_fail_outM 1 1 (List.replicate (1 * 1 * double_bytes) 1)
        = [0, 0, 0, 0, 1, 1, 1, 1] := by
  constructor <;> rfl

/-! ## Flat row-major index arithmetic -/

theorem rowmajor_div (dim i j : ℕ) (hj : j < dim) : (i * dim + j) / dim = i := by
  rw [Nat.add_comm, Nat.mul_comm, Nat.add_mul_div_left _ _ (Nat.lt_of_le_of_lt (Nat.zero_le j) hj)]
  simp [Nat.div_eq_of_lt hj]

theorem rowmajor_mod (dim i j : ℕ) (hj : j < dim) : (i * dim + j) % dim = j := by
  rw [Nat.add_comm, Nat.mul_comm, Nat.add_mul_mod_self_left]
  exact Nat.mod_eq_of_lt hj

theorem rowmajor_lt (a b i j : ℕ) (hi : i < a) (hj : j < b) : i * b + j < a * b :=
  calc i * b + j < i * b + b := by omega
    _ = (i + 1) * b := by ring
    _ ≤ a * b := Nat.mul_le_mul_right b hi

/-! ## `utility_sseig` — symmetric eigendecomposition (saf_veclib.c
lines 316-365)

The backend call `ssyev_("Vectors", "Upper", ...)` overwrites `a` with the
orthonormal eigenvectors stored column-major and fills `w` with the
eigenvalues in ascending order; `info` is its status.  The model takes those
backend outputs as parameters and reproduces the output phase
(lines 339-360): `D` is `memset` to zero, on failure (`info > 0`) `V` is
zeroed too, and on success the eigenvectors are transposed back to
row-major (with columns reversed when `sortDecFLAG`) and the eigenvalues
are placed on the diagonal of `D` (in reverse order when `sortDecFLAG`). -/

/-- Final contents of the caller-provided `D` buffer of `utility_sseig`,
as a function of the flat row-major index. -/
def utility_sseig_D (dim : ℕ) (sortDecFLAG : Bool) (info : ℤ) (w : ℕ → ℚ)
    (Dold : ℕ → ℚ) : ℕ → ℚ :=
  fun idx =>
    if idx < dim * dim then
      if 0 < info then 0
      else
        let i := idx / dim
        let j := idx % dim
        if i = j then (if sortDecFLAG then w (dim - i - 1) else w i) else 0
    else Dold idx

/-- Final contents of the caller-provided `V` buffer of `utility_sseig`:
`V[i*dim+j] = a[(dim-j-1)*dim+i]` (descending) or `a[j*dim+i]`
(ascending), i.e. the transpose of the backend buffer with columns
optionally reversed. -/
def utility_sseig_V (dim : ℕ) (sortDecFLAG : Bool) (info : ℤ) (aOut : ℕ → ℚ)
    (Vold : ℕ → ℚ) : ℕ → ℚ :=
  fun idx =>
    if idx < dim * dim then
      if 0 < info then 0
      else
        let i := idx / dim
        let j := idx % dim
        if sortDecFLAG then aOut ((dim - j - 1) * dim + i) else aOut (j * dim + i)
    else Vold idx

/-- C4: when the backend eigensolver succeeds (`info ≤ 0`) and delivers its
eigenvalues ascending in `w`, `utility_sseig` with `sortDecFLAG = 1` puts a
non-increasing diagonal `D[i][i] = w[dim-1-i]` with the columns of `V`
reversed, and with `sortDecFLAG = 0` a non-decreasing diagonal
`D[i][i] = w[i]` with `V` the row-major transpose of the backend
eigenvector matrix. -/
theorem C4_sseig_sort_orders (dim : ℕ) (info : ℤ) (w aOut Dold Vold : ℕ → ℚ)
    (hinfo : info ≤ 0)
    (hw : ∀ i j : ℕ, i ≤ j → j < dim → w i ≤ w j) :
    (∀ i : ℕ, i < dim →
      utility_sseig_D dim true info w Dold (i * dim + i) = w (dim - 1 - i)
      ∧ utility_sseig_D dim false info w Dold (i * dim + i) = w i)
    ∧ (∀ i : ℕ, i + 1 < dim →
      utility_sseig_D dim true info w Dold ((i + 1) * dim + (i + 1))
          ≤ utility_sseig_D dim true info w Dold (i * dim + i)
      ∧ utility_sseig_D dim false info w Dold (i * dim + i)
          ≤ utility_sseig_D dim false info w Dold ((i + 1) * dim + (i + 1)))
    ∧ (∀ i j : ℕ, i < dim → j < dim →
      utility_sseig_V dim true info aOut Vold (i * dim + j)
          = aOut ((dim - 1 - j) * dim + i)
      ∧ utility_sseig_V dim false info aOut Vold (i * dim + j)
          = aOut (j * dim + i)) := by
  have hnot : ¬ (0 < info) := by omega
  have hD : ∀ i : ℕ, i < dim → ∀ fl : Bool,
      utility_sseig_D dim fl info w Dold (i * dim + i)
        = (if fl then w (dim - i - 1) else w i) := by
    intro i hi fl
    unfold utility_sseig_D
    rw [if_pos (rowmajor_lt dim dim i i hi hi), if_neg hnot]
    simp only [rowmajor_div dim i i hi, rowmajor_mod dim i i hi, if_pos rfl]
    simp
  refine ⟨?_, ?_, ?_⟩
  · intro i hi
    constructor
    · rw [hD i hi true]
      simp only [if_true]
      congr 1
      omega
    · rw [hD i hi false]
      simp
  · intro i hi
    constructor
    · rw [hD i (by omega) true, hD (i + 1) hi true]
      simp only [if_true]
      exact hw (dim - (i + 1) - 1) (dim - i - 1) (by omega) (by omega)
    · rw [hD i (by omega) false, hD (i + 1) hi false]
      simp only [if_false, Bool.false_eq_true]
      exact hw i (i + 1) (by omega) hi
  · intro i j hi hj
    constructor
    · unfold utility_sseig_V
      rw [if_pos (rowmajor_lt dim dim i j hi hj), if_neg hnot]
      simp only [rowmajor_div dim i j hj, rowmajor_mod dim i j hj, if_true]
      have hjj : dim - j - 1 = dim - 1 - j := by omega
      rw [hjj]
    · unfold utility_sseig_V
      rw [if_pos (rowmajor_lt dim dim i j hi hj), if_neg hnot]
      simp only [rowmajor_div dim i j hj, rowmajor_mod dim i j hj]
      simp

/-- Witness for C4 at `dim = 2`, `info = 0`, `w = id`: descending order puts
`w[1] = 1` at `D[0][0]` and `w[0] = 0` at `D[1][1]`, ascending keeps `w`. -/
theorem C4_sseig_sort_orders_witness :
    utility_sseig_D 2 true 0 (fun i => (i : ℚ)) (fun _ => 37) 0 = 1
    ∧ utility_sseig_D 2 false 0 (fun i => (i : ℚ)) (fun _ => 37) 3 = 1 := by
  have h := C4_sseig_sort_orders 2 0 (fun i => (i : ℚ)) (fun idx => (idx : ℚ))
    (fun _ => 37) (fun _ => 37) (by norm_num)
    (fun i j hij _ => by show (i : ℚ) ≤ (j : ℚ); exact_mod_cast hij)
  constructor
  · have h0 := (h.1 0 (by norm_num)).1
    simpa using h0
  · have h1 := (h.1 1 (by norm_num)).2
    simpa using h1

/-! ## `utility_ssvd` — singular value decomposition (saf_veclib.c
lines 260-312)

The backend call `sgesvd_("A", "A", ...)` produces, on success, the full
column-major `dim1 × dim1` left factor `u`, the singular values `sv`
(of which `min(dim1,dim2)` exist), and the row-major right factor `vt`;
`info` is its status.  The driver unconditionally frees the previous
`*U`, `*S`, `*V` (lines 282-284); on `info > 0` it sets all three to NULL,
otherwise it allocates fresh buffers and converts layouts. -/

/-- Model of `utility_ssvd`.  Returns the list of previous pointer values
released by the three `free` calls, and the final values of `*U`, `*S`,
`*V` (`none` models a NULL pointer). -/
def utility_ssvd (dim1 dim2 : ℕ) (info : ℤ) (sv u vt : ℕ → ℚ)
    (oldU oldS oldV : Option (ℕ → ℚ)) :
    List (Option (ℕ → ℚ)) × (Option (ℕ → ℚ) × Option (ℕ → ℚ) × Option (ℕ → ℚ)) :=
  ( [oldU, oldS, oldV],
    if 0 < info then (none, none, none)
    else
      ( -- (*U)[i*dim1+j] = u[j*dim1+i]  (column-major to row-major)
        some (fun idx => if idx < dim1 * dim1 then
          u ((idx % dim1) * dim1 + idx / dim1) else 0),
        -- (*S) = calloc(dim1*dim2); (*S)[i*dim2+i] = sv[i] for i < min
        some (fun idx => if idx < dim1 * dim2 then
          (if idx / dim2 = idx % dim2 ∧ idx / dim2 < min dim1 dim2
           then sv (idx / dim2) else 0)
          else 0),
        -- (*V)[i*dim2+j] = vt[i*dim2+j]  (LAPACK returns VT, row-major V)
        some (fun idx => if idx < dim2 * dim2 then vt idx else 0) ) )

/-- C5: when the backend SVD reports non-convergence (`info > 0`), the
previous `*U`, `*S`, `*V` are freed and all three pointers are set to NULL,
with no other output written. -/
theorem C5_ssvd_failure_nulls (dim1 dim2 : ℕ) (info : ℤ) (sv u vt : ℕ → ℚ)
    (oldU oldS oldV : Option (ℕ → ℚ)) (h : 0 < info) :
    (utility_ssvd dim1 dim2 info sv u vt oldU oldS oldV).1 = [oldU, oldS, oldV]
    ∧ (utility_ssvd dim1 dim2 info sv u vt oldU oldS oldV).2
        = (none, none, none) := by
  constructor
  · rfl
  · simp [utility_ssvd, h]

/-- Witness for C5 at `dim1 = dim2 = 1`, `info = 1`, previously allocated
output pointers: all three are freed and become NULL. -/
theorem C5_ssvd_failure_nulls_witness :
    (utility_ssvd 1 1 1 (fun _ => 0) (fun _ => 0) (fun _ => 0)
        (some fun _ => 5) (some fun _ => 6) (some fun _ => 7)).1
      = [some fun _ => 5, some fun _ => 6, some fun _ => 7]
    ∧ (utility_ssvd 1 1 1 (fun _ => 0) (fun _ => 0) (fun _ => 0)
        (some fun _ => 5) (some fun _ => 6) (some fun _ => 7)).2
      = (none, none, none) :=
  C5_ssvd_failure_nulls 1 1 1 (fun _ => 0) (fun _ => 0) (fun _ => 0)
    (some fun _ => 5) (some fun _ => 6) (some fun _ => 7) (by norm_num)

/-- C6: on backend success, `utility_ssvd` returns a fresh full
`dim1 × dim1` row-major `U` (the transpose of the column-major backend
factor), a fresh full `dim2 × dim2` row-major `V`, and a fresh
`dim1 × dim2` matrix `S` holding the `i`-th singular value at `(i,i)` for
every `i < min(dim1,dim2)` and zero at every other position. -/
theorem C6_ssvd_success_layout (dim1 dim2 : ℕ) (info : ℤ) (sv u vt : ℕ → ℚ)
    (oldU oldS oldV : Option (ℕ → ℚ)) (h : info ≤ 0) :
    ∃ fU fS fV,
      (utility_ssvd dim1 dim2 info sv u vt oldU oldS oldV).2
        = (some fU, some fS, some fV)
      ∧ (∀ i j : ℕ, i < dim1 → j < dim1 → fU (i * dim1 + j) = u (j * dim1 + i))
      ∧ (∀ i j : ℕ, i < dim1 → j < dim2 →
          fS (i * dim2 + j) = if i = j then sv i else 0)
      ∧ (∀ i j : ℕ, i < dim2 → j < dim2 → fV (i * dim2 + j) = vt (i * dim2 + j)) := by
  have hnot : ¬ (0 < info) := by omega
  refine ⟨(fun idx => if idx < dim1 * dim1 then
      u ((idx % dim1) * dim1 + idx / dim1) else 0),
    (fun idx => if idx < dim1 * dim2 then
      (if idx / dim2 = idx % dim2 ∧ idx / dim2 < min dim1 dim2
       then sv (idx / dim2) else 0)
      else 0),
    (fun idx => if idx < dim2 * dim2 then vt idx else 0), ?_, ?_, ?_, ?_⟩
  · simp only [utility_ssvd, if_neg hnot]
  · intro i j hi hj
    dsimp only
    rw [if_pos (rowmajor_lt dim1 dim1 i j hi hj)]
    rw [rowmajor_div dim1 i j hj, rowmajor_mod dim1 i j hj]
  · intro i j hi hj
    dsimp only
    rw [if_pos (rowmajor_lt dim1 dim2 i j hi hj)]
    rw [rowmajor_div dim2 i j hj, rowmajor_mod dim2 i j hj]
    by_cases hij : i = j
    · subst hij
      rw [if_pos rfl, if_pos ⟨rfl, by omega⟩]
    · rw [if_neg hij, if_neg (by tauto)]
  · intro i j hi hj
    dsimp only
    rw [if_pos (rowmajor_lt dim2 dim2 i j hi hj)]

/-- Witness for C6 at `dim1 = 2`, `dim2 = 1`, `info = 0`: the `2 × 1`
matrix `S` holds `sv 0 = 9` at `(0,0)` and `0` at `(1,0)`. -/
theorem C6_ssvd_success_layout_witness :
    ∃ fU fS fV,
      (utility_ssvd 2 1 0 (fun _ => 9) (fun idx => (idx : ℚ)) (fun _ => 3)
          none none none).2 = (some fU, some fS, some fV)
      ∧ fS 0 = 9 ∧ fS 1 = 0 ∧ fU 1 = 2 ∧ fV 0 = 3 := by
  obtain ⟨fU, fS, fV, heq, hU, hS, hV⟩ :=
    C6_ssvd_success_layout 2 1 0 (fun _ => 9) (fun idx => (idx : ℚ)) (fun _ => 3)
      none none none (by norm_num)
  refine ⟨fU, fS, fV, heq, ?_, ?_, ?_, ?_⟩
  · have := hS 0 0 (by norm_num) (by norm_num)
    simpa using this
  · have := hS 1 0 (by norm_num) (by norm_num)
    simpa using this
  · have := hU 0 1 (by norm_num) (by norm_num)
    simpa using this
  · have := hV 0 0 (by norm_num) (by norm_num)
    simpa using this

/-! ## Pseudo-inverse success path (saf_veclib.c lines 601-668 and 670-738)

Economy SVD: `sgesvd_("S","S", ...)` / `dgesvd_` return, for an
`m × n = dim1 × dim2` input and `k = min(dim1,dim2)`:
`s` (the `k` singular values), `u` (column-major `m × k`, leading
dimension `m`) and `vt` (column-major `k × n`, leading dimension `k`).
On success each column `i < k` of `u` is scaled by `1/s[i]` if
`s[i] > tol` and by `s[i]` otherwise (`cblas_sscal(m, ss, &u[i*m], 1)`),
then `cblas_sgemm(ColMajor, Trans, Trans, n, m, k, 1, vt, k, u, m, 0,
inva, n)` forms the column-major `n × m` product, which is transposed into
the row-major `dim2 × dim1` caller buffer `outM[j*m+i] = inva[i*n+j]`. -/

/-- Singular-value clamp tolerance of `utility_spinv` (`1.0e-5f`). -/
def spinv_tol : ℚ := 1 / 100000

/-- Singular-value clamp tolerance of `utility_dpinv` (`1.0e-9f`). -/
def dpinv_tol : ℚ := 1 / 1000000000

/-- The scaled economy `u` factor: the `cblas_sscal` loop multiplies entry
`idx` (column `idx / m`, for the `k` columns stored contiguously with
leading dimension `m`) by `1/s[i]` when `s[i] > tol` and by `s[i]`
otherwise. -/
def pinv_u_scaled (m k : ℕ) (tol : ℚ) (s u : ℕ → ℚ) : ℕ → ℚ :=
  fun idx =>
    if idx < k * m then
      (if tol < s (idx / m) then 1 / s (idx / m) else s (idx / m)) * u idx
    else u idx

/-- The row-major `dim2 × dim1` output of the pseudo-inverse drivers on the
success path: `outM[j*m+i] = inva[i*n+j]` where
`inva[c*n+r] = Σ_t vt[r*k+t] * u_scaled[t*m+c]` is the `cblas_?gemm`
product described above. -/
def pinv_outM (dim1 dim2 : ℕ) (tol : ℚ) (s u vt : ℕ → ℚ)
    (outMold : ℕ → ℚ) : ℕ → ℚ :=
  fun idx =>
    if idx < dim2 * dim1 then
      let j := idx / dim1
      let i := idx % dim1
      ∑ t ∈ Finset.range (min dim1 dim2),
        vt (j * min dim1 dim2 + t) * pinv_u_scaled dim1 (min dim1 dim2) tol s u (t * dim1 + i)
    else outMold idx

/-- Success path of `utility_spinv` (single precision, tolerance `1e-5`). -/
def utility_spinv_success (dim1 dim2 : ℕ) (s u vt : ℕ → ℚ)
    (outMold : ℕ → ℚ) : ℕ → ℚ :=
  pinv_outM dim1 dim2 spinv_tol s u vt outMold

/-- Success path of `utility_dpinv` (double precision, tolerance `1e-9`). -/
def utility_dpinv_success (dim1 dim2 : ℕ) (s u vt : ℕ → ℚ)
    (outMold : ℕ → ℚ) : ℕ → ℚ :=
  pinv_outM dim1 dim2 dpinv_tol s u vt outMold

/-- C7: in both pseudo-inverse drivers, each of the `k = min(dim1,dim2)`
columns of the economy `U` is scaled by `1/s_t` when `s_t` exceeds the
precision's tolerance (`1e-5` single, `1e-9` double) and by `s_t` itself
otherwise, and the scaled factors are combined (summed against `Vᵗ`) into
the `dim2 × dim1` row-major output. -/
theorem C7_pinv_reciprocal_clamp (dim1 dim2 : ℕ) (s u vt outMoldS outMoldD : ℕ → ℚ)
    (j i : ℕ) (hj : j < dim2) (hi : i < dim1) :
    utility_spinv_success dim1 dim2 s u vt outMoldS (j * dim1 + i)
      = (∑ t ∈ Finset.range (min dim1 dim2),
          vt (j * min dim1 dim2 + t)
            * ((if spinv_tol < s t then 1 / s t else s t) * u (t * dim1 + i)))
    ∧ utility_dpinv_success dim1 dim2 s u vt outMoldD (j * dim1 + i)
      = (∑ t ∈ Finset.range (min dim1 dim2),
          vt (j * min dim1 dim2 + t)
            * ((if dpinv_tol < s t then 1 / s t else s t) * u (t * dim1 + i))) := by
  have key : ∀ tol : ℚ, ∀ oldM : ℕ → ℚ,
      pinv_outM dim1 dim2 tol s u vt oldM (j * dim1 + i)
        = ∑ t ∈ Finset.range (min dim1 dim2),
            vt (j * min dim1 dim2 + t)
              * ((if tol < s t then 1 / s t else s t) * u (t * dim1 + i)) := by
    intro tol oldM
    unfold pinv_outM
    rw [if_pos (rowmajor_lt dim2 dim1 j i hj hi)]
    dsimp only
    rw [rowmajor_div dim1 j i hi, rowmajor_mod dim1 j i hi]
    refine Finset.sum_congr rfl ?_
    intro t ht
    have htk : t < min dim1 dim2 := Finset.mem_range.mp ht
    unfold pinv_u_scaled
    rw [if_pos (rowmajor_lt (min dim1 dim2) dim1 t i htk hi)]
    rw [rowmajor_div dim1 t i hi]
  exact ⟨key spinv_tol outMoldS, key dpinv_tol outMoldD⟩

/-- Witness for C7 at `dim1 = dim2 = 1`: with `s = [1/2]` (above both
tolerances, so scaled by `1/s = 2`), `u = [3]`, `vt = [5]`, the single
output element is `5 * (2 * 3) = 30` in both precisions. -/
theorem C7_pinv_reciprocal_clamp_witness :
    utility_spinv_success 1 1 (fun _ => 1 / 2) (fun _ => 3) (fun _ => 5)
        (fun _ => 0) 0 = 30
    ∧ utility_dpinv_success 1 1 (fun _ => 1 / 2) (fun _ => 3) (fun _ => 5)
        (fun _ => 0) 0 = 30 := by
  have h := C7_pinv_reciprocal_clamp 1 1 (fun _ => 1 / 2) (fun _ => 3)
    (fun _ => 5) (fun _ => 0) (fun _ => 0) 0 0 (by norm_num) (by norm_num)
  constructor
  · rw [show (0 : ℕ) = 0 * 1 + 0 by norm_num, h.1]
    norm_num [spinv_tol]
  · rw [show (0 : ℕ) = 0 * 1 + 0 by norm_num, h.2]
    norm_num [dpinv_tol]

/-! ## `utility_ceig` — general complex eigendecomposition (saf_veclib.c
lines 369-445)

The backend call `cgeev_("Vectors","Vectors", ...)` produces the complex
eigenvalues `w` (in unspecified order), the column-major left/right
eigenvector matrices `vl`, `vr`, and the status `info`.  The driver then
extracts the real parts `wr[i] = crealf(w[i])`, sorts them in place with
`sortf(wr, NULL, sort_idx, dim, sortDecFLAG)`, and writes the outputs —
every write to `VL`, `VR` and `D` is guarded by a NULL check.  The
diagonal of `D` receives `cmplxf(wr[i], 0.0f)`: only the sorted real
parts, with imaginary part exactly zero. -/

/-- Final contents of the three output buffers of `utility_ceig`. -/
structure CeigOut where
  VL : Option (ℕ → ℚ × ℚ)
  VR : Option (ℕ → ℚ × ℚ)
  D : Option (ℕ → ℚ × ℚ)

/-- Model of `utility_ceig`: `w`, `vl`, `vr`, `info` are the `cgeev_`
outputs; `VLold`, `VRold`, `Dold` model the caller's (possibly NULL)
output buffers. -/
def utility_ceig (dim : ℕ) (sortDecFLAG : Bool) (info : ℤ)
    (w : List (ℚ × ℚ)) (vl vr : ℕ → ℚ × ℚ)
    (VLold VRold Dold : Option (ℕ → ℚ × ℚ)) : CeigOut :=
  let wr := w.map Prod.fst
  let wrSorted := sortf_vals wr sortDecFLAG
  let sort_idx := sortf_idx wr sortDecFLAG
  if 0 < info then
    { VL := VLold.map (fun VLb idx => if idx < dim * dim then (0, 0) else VLb idx)
      VR := VRold.map (fun VRb idx => if idx < dim * dim then (0, 0) else VRb idx)
      D := Dold.map (fun Db idx => if idx < dim * dim then (0, 0) else Db idx) }
  else
    { VL := VLold.map (fun VLb idx =>
        if idx < dim * dim then
          vl (sort_idx.getD (idx % dim) 0 * dim + idx / dim)
        else VLb idx)
      VR := VRold.map (fun VRb idx =>
        if idx < dim * dim then
          vr (sort_idx.getD (idx % dim) 0 * dim + idx / dim)
        else VRb idx)
      D := Dold.map (fun Db idx =>
        if idx < dim * dim then
          (if idx / dim = idx % dim then (wrSorted.getD (idx / dim) 0, 0)
           else (0, 0))
        else Db idx) }

/-- C9: on every successful `utility_ceig` call with non-null `D`, each
diagonal entry of `D` is the corresponding sorted backend eigenvalue real
part paired with an imaginary part that is exactly zero — the imaginary
parts of genuinely complex eigenvalues are discarded. -/
theorem C9_ceig_D_discards_imag (dim : ℕ) (sortDecFLAG : Bool) (info : ℤ)
    (w : List (ℚ × ℚ)) (vl vr : ℕ → ℚ × ℚ)
    (VLold VRold : Option (ℕ → ℚ × ℚ)) (Dold : ℕ → ℚ × ℚ)
    (hinfo : info ≤ 0) (i : ℕ) (hi : i < dim) :
    ∃ d, (utility_ceig dim sortDecFLAG info w vl vr VLold VRold (some Dold)).D
        = some d
      ∧ d (i * dim + i)
          = ((sortf_vals (w.map Prod.fst) sortDecFLAG).getD i 0, 0)
      ∧ (d (i * dim + i)).2 = 0 := by
  have hnot : ¬ (0 < info) := by omega
  refine ⟨(fun idx =>
      if idx < dim * dim then
        (if idx / dim = idx % dim
         then ((sortf_vals (w.map Prod.fst) sortDecFLAG).getD (idx / dim) 0, 0)
         else (0, 0))
      else Dold idx), ?_, ?_, ?_⟩
  · simp only [utility_ceig, if_neg hnot, Option.map_some']
  · dsimp only
    rw [if_pos (rowmajor_lt dim dim i i hi hi)]
    rw [rowmajor_div dim i i hi, rowmajor_mod dim i i hi, if_pos rfl]
  · dsimp only
    rw [if_pos (rowmajor_lt dim dim i i hi hi)]
    rw [rowmajor_div dim i i hi, rowmajor_mod dim i i hi, if_pos rfl]

/-- Witness for C9 at `dim = 1`, one genuinely complex eigenvalue `5 + 7i`:
the diagonal entry of `D` is `(5, 0)` — the imaginary part `7` is
discarded. -/
theorem C9_ceig_D_discards_imag_witness :
    ∃ d, (utility_ceig 1 false 0 [(5, 7)] (fun _ => (0, 0)) (fun _ => (0, 0))
        none none (some fun _ => (1, 1))).D = some d
      ∧ d 0 = (5, 0) ∧ (d 0).2 = 0 := by
  obtain ⟨d, hd, hval, him⟩ :=
    C9_ceig_D_discards_imag 1 false 0 [(5, 7)] (fun _ => (0, 0)) (fun _ => (0, 0))
      none none (fun _ => (1, 1)) (by norm_num) 0 (by norm_num)
  refine ⟨d, hd, ?_, ?_⟩
  · have : ((sortf_vals ([(5, 7)].map Prod.fst) false).getD 0 0 : ℚ) = 5 := by decide
    simpa [this] using hval
  · simpa using him

/-- C10: each of the three output pointers `VL`, `VR`, `D` of
`utility_ceig` may independently be NULL, and a NULL output pointer is
never written through on any path (success or failure); `D`, when non-null,
is zero-filled before (and written only on) the success diagonal writes —
on failure it stays entirely zero. -/
theorem C10_ceig_null_safety (dim : ℕ) (sortDecFLAG : Bool) (info : ℤ)
    (w : List (ℚ × ℚ)) (vl vr : ℕ → ℚ × ℚ)
    (VLold VRold Dold : Option (ℕ → ℚ × ℚ)) :
    ((VLold = none →
        (utility_ceig dim sortDecFLAG info w vl vr VLold VRold Dold).VL = none)
      ∧ (VRold = none →
        (utility_ceig dim sortDecFLAG info w vl vr VLold VRold Dold).VR = none)
      ∧ (Dold = none →
        (utility_ceig dim sortDecFLAG info w vl vr VLold VRold Dold).D = none))
    ∧ (∀ Db : ℕ → ℚ × ℚ, Dold = some Db → 0 < info →
        (utility_ceig dim sortDecFLAG info w vl vr VLold VRold Dold).D
          = some (fun idx => if idx < dim * dim then (0, 0) else Db idx)) := by
  refine ⟨⟨?_, ?_, ?_⟩, ?_⟩
  · intro h
    subst h
    unfold utility_ceig
    by_cases hinfo : 0 < info <;> simp [hinfo]
  · intro h
    subst h
    unfold utility_ceig
    by_cases hinfo : 0 < info <;> simp [hinfo]
  · intro h
    subst h
    unfold utility_ceig
    by_cases hinfo : 0 < info <;> simp [hinfo]
  · intro Db h hinfo
    subst h
    unfold utility_ceig
    simp [hinfo]

/-- Witness for C10: with all three output pointers NULL (`dim = 1`,
failure status `info = 1`), nothing is written — all outputs stay NULL —
and with a non-null `D` on the failure path `D` is zero-filled. -/
theorem C10_ceig_null_safety_witness :
    ((utility_ceig 1 false 1 [(2, 3)] (fun _ => (0, 0)) (fun _ => (0, 0))
        none none none).VL = none
      ∧ (utility_ceig 1 false 1 [(2, 3)] (fun _ => (0, 0)) (fun _ => (0, 0))
        none none none).VR = none
      ∧ (utility_ceig 1 false 1 [(2, 3)] (fun _ => (0, 0)) (fun _ => (0, 0))
        none none none).D = none)
    ∧ (utility_ceig 1 false 1 [(2, 3)] (fun _ => (0, 0)) (fun _ => (0, 0))
        none none (some fun _ => (9, 9))).D
      = some (fun idx => if idx < 1 * 1 then ((0 : ℚ), (0 : ℚ)) else (9, 9)) := by
  have h1 := C10_ceig_null_safety 1 false 1 [(2, 3)] (fun _ => (0, 0))
    (fun _ => (0, 0)) none none none
  have h2 := C10_ceig_null_safety 1 false 1 [(2, 3)] (fun _ => (0, 0))
    (fun _ => (0, 0)) none none (some fun _ => (9, 9))
  exact ⟨⟨h1.1.1 rfl, h1.1.2.1 rfl, h1.1.2.2 rfl⟩,
    h2.2 (fun _ => (9, 9)) rfl (by norm_num)⟩

end SafVeclib
